import Mathlib

/-!
Verification development for the AgentHub ReAct engine.

Shallow embedding of the step engine (`app/agent/toolcall.py`,
`app/agent/base.py`), the tool dispatcher (`ToolCallAgent._execute_tool_call`)
and the LLM client retry layer (`app/llm.py`).  LLM responses and tool
executions are supplied by oracles, so one run of the embedded engine
corresponds to one concrete interleaving of the real program.
-/

set_option autoImplicit false

namespace AgentHub

/-- Modelled from the spec: `app/schema.py` is not under `src/`; roles follow
§3 of the spec (system, user, assistant, tool-result). -/
inductive Role
  | system
  | user
  | assistant
  | tool
deriving DecidableEq

/-- A single tool invocation as returned by the LLM: `command.id`,
`command.function.name`, `command.function.arguments` (raw JSON text). -/
structure ToolCall where
  id : String
  name : String
  arguments : String
deriving DecidableEq

/-- Modelled from the spec: `app/schema.py` is not under `src/`; a Message is
a role-tagged record with optional content (`none` models Python `None`),
an invocation list on assistant messages, and the id/name links on
tool-result messages (§3 of the spec). -/
structure Message where
  role : Role
  content : Option String
  tool_calls : List ToolCall := []
  tool_call_id : Option String := none
  name : Option String := none
deriving DecidableEq

/-- Modelled from the spec: `Message.user_message` constructor. -/
def Message.user_message (c : String) : Message :=
  { role := Role.user, content := some c }

/-- Modelled from the spec: `Message.system_message` constructor. -/
def Message.system_message (c : String) : Message :=
  { role := Role.system, content := some c }

/-- Modelled from the spec: `Message.assistant_message` constructor (content
may be `None`). -/
def Message.assistant_message (c : Option String) : Message :=
  { role := Role.assistant, content := c }

/-- Modelled from the spec: `Message.tool_message(content, tool_call_id, name)`
constructor for tool-result messages. -/
def Message.tool_message (c : String) (callId toolName : String) : Message :=
  { role := Role.tool, content := some c, tool_call_id := some callId,
    name := some toolName }

/-- Modelled from the spec: `Message.from_tool_calls` builds the assistant
message carrying the invocation list. -/
def Message.from_tool_calls (c : Option String) (tcs : List ToolCall) : Message :=
  { role := Role.assistant, content := c, tool_calls := tcs }

/-- Python truthiness of an optional string: `None` and `""` are falsy. -/
def truthy : Option String → Bool
  | none => false
  | some s => s ≠ ""

/-- Engine states of `app.schema.AgentState` as used by the agents
(IDLE, RUNNING, FINISHED, ERROR). -/
inductive AgentState
  | IDLE
  | RUNNING
  | FINISHED
  | ERROR
deriving DecidableEq

/-- The `tool_choices` literal of `ToolCallAgent`:
`"none" | "auto" | "required"` (`tnone` stands for the string `"none"`). -/
inductive ToolChoice
  | tnone
  | auto
  | required
deriving DecidableEq

/-- The mutable fields of a `ToolCallAgent` that the engine reads or writes
(`app/agent/toolcall.py`). -/
structure Agent where
  tool_choices : ToolChoice := ToolChoice.auto
  next_step_prompt : String := ""
  special_tool_commands : List String := ["finish"]
  duplicate_threshold : Nat := 2
  max_steps : Nat := 30
  current_step : Nat := 0
  state : AgentState := AgentState.IDLE
  memory : List Message := []
  commands : List ToolCall := []
deriving DecidableEq

/-- Outcome of invoking a tool executor from `tool_execution_map`: either the
returned value (a string; `""` also models a falsy `None` result) or a raised
exception rendered by `traceback.format_exc()`. -/
inductive ExecOutcome
  | ok (result : String)
  | raises (trace : String)

/-- Oracle for the effectful ingredients of `_execute_tool_call`:
whether `json.loads` succeeds on the raw arguments, whether the name is in
`tool_execution_map`, the executor's outcome, and the `str(e)` rendering of a
`json.JSONDecodeError`. -/
structure ToolEnv where
  jsonDecodes : String → Bool
  hasTool : String → Bool
  outcome : ToolCall → ExecOutcome
  jsonErrStr : String → String

/-- Python exceptions that escape the dispatcher or `act` and are caught by
the `except Exception` clause of `ToolCallAgent.run`. -/
inductive PyErr
  | jsonDecodeError (raw : String)
  | valueError (msg : String)
deriving DecidableEq

/-- `str(e)` for the exceptions of `PyErr`. -/
def pyErrStr (env : ToolEnv) : PyErr → String
  | PyErr.jsonDecodeError raw => env.jsonErrStr raw
  | PyErr.valueError m => m

/-- The structured LLM reply consumed by `ToolCallAgent.think`:
`response.content` and `response.tool_calls`. -/
structure LLMResponse where
  content : Option String
  tool_calls : List ToolCall := []

/-- `ToolCallAgent._execute_tool_call` (toolcall.py lines 196-223).
`json.loads(command.function.arguments)` runs before the `try` block, so a
decode failure is a raised exception, not a returned string.  A successful
special (terminal) command sets `state := FINISHED`. -/
def execute_tool_call (env : ToolEnv) (a : Agent) (c : ToolCall) :
    Agent × Except PyErr String :=
  if env.jsonDecodes c.arguments = false then
    (a, Except.error (PyErr.jsonDecodeError c.arguments))
  else if c.name = "" then
    (a, Except.ok "Error:\nNo command specified.")
  else if env.hasTool c.name = false then
    (a, Except.ok ("Error:\nCommand \x27" ++ c.name ++ "\x27 not found."))
  else
    match env.outcome c with
    | ExecOutcome.ok result =>
        let observation := "Observed result of " ++ c.name ++ ":\n" ++
          (if result ≠ "" then result
           else "Command completed successfully with no output.")
        let a1 := if a.special_tool_commands.contains c.name then
            { a with state := AgentState.FINISHED }
          else a
        (a1, Except.ok observation)
    | ExecOutcome.raises trace =>
        (a, Except.ok ("Error:\n" ++ trace))

/-- `self.memory.messages[-1].content or default` as read by `act` when there
are no commands (the run flow only reaches it with non-empty memory; the
empty case is mapped to the default). -/
def lastContentOr (mem : List Message) (d : String) : String :=
  match mem.getLast? with
  | some msg =>
      match msg.content with
      | some c => if c ≠ "" then c else d
      | none => d
  | none => d

/-- The `for command in self.commands` loop of `ToolCallAgent.act`:
dispatch each invocation in order, append one tool-result message per
invocation, stop (propagating the exception) if a dispatch raises. -/
def actLoop (env : ToolEnv) : Agent → List ToolCall → List String →
    Agent × Except PyErr String
  | a, [], results => (a, Except.ok (String.intercalate "\n\n" results))
  | a, c :: rest, results =>
      match execute_tool_call env a c with
      | (a1, Except.ok result) =>
          let a2 := { a1 with
            memory := a1.memory ++ [Message.tool_message result c.id c.name] }
          actLoop env a2 rest (results ++ [result])
      | (a1, Except.error e) => (a1, Except.error e)

/-- `ToolCallAgent.act` (toolcall.py lines 171-194).  With no commands it
raises `ValueError` under `required` and otherwise echoes the last message
content; with commands it runs `actLoop`. -/
def act (env : ToolEnv) (a : Agent) : Agent × Except PyErr String :=
  if a.commands.isEmpty then
    if a.tool_choices = ToolChoice.required then
      (a, Except.error (PyErr.valueError "Tool calls required but none provided"))
    else
      (a, Except.ok (lastContentOr a.memory "No content or commands to execute"))
  else
    actLoop env a a.commands []

/-- `ToolCallAgent.is_stuck` (toolcall.py lines 49-65): count the identical
assistant contents anywhere in `memory[:-1]` and compare with
`duplicate_threshold`. -/
def is_stuck (a : Agent) : Bool :=
  if a.memory.length < 2 then false
  else
    match a.memory.getLast? with
    | none => false
    | some last =>
        if truthy last.content = false then false
        else
          decide (a.duplicate_threshold ≤
            (a.memory.dropLast.filter
              (fun m => decide (m.role = Role.assistant ∧ m.content = last.content))).length)

/-- The intervention notice of `handle_stuck_state`. -/
def stuck_prompt : String :=
  "Observed duplicate responses. Consider changing strategy or terminating the interaction."

/-- `ToolCallAgent.handle_stuck_state`: prepend the notice to
`next_step_prompt`. -/
def handle_stuck_state (a : Agent) : Agent :=
  { a with next_step_prompt := stuck_prompt ++ "\n" ++ a.next_step_prompt }

/-- The `messages` list built at the top of `ToolCallAgent.think`
(lines 126-129): memory plus, when `next_step_prompt` is truthy, one
transient user message; this list is what is sent to `llm.ask_tool`. -/
def think_messages (a : Agent) : List Message :=
  if a.next_step_prompt ≠ "" then
    a.memory ++ [Message.user_message a.next_step_prompt]
  else a.memory

/-- `ToolCallAgent.think` (toolcall.py lines 124-169) given the LLM reply:
returns the `should_act` flag and the updated agent. -/
def think (resp : LLMResponse) (a : Agent) : Bool × Agent :=
  if a.tool_choices = ToolChoice.tnone then
    let a1 := { a with commands := [] }
    if truthy resp.content then
      (true, { a1 with memory := a1.memory ++ [Message.assistant_message resp.content] })
    else (false, a1)
  else
    let a1 := { a with commands := resp.tool_calls }
    let msg := if resp.tool_calls.isEmpty then
        Message.assistant_message resp.content
      else Message.from_tool_calls resp.content resp.tool_calls
    let a2 := { a1 with memory := a1.memory ++ [msg] }
    if a2.tool_choices = ToolChoice.required ∧ resp.tool_calls = [] then (true, a2)
    else if a2.tool_choices = ToolChoice.auto ∧ resp.tool_calls = [] then
      (truthy resp.content, a2)
    else (!resp.tool_calls.isEmpty, a2)

/-- One iteration of the `while` loop of `ToolCallAgent.run` (lines 80-115),
starting after the `current_step` increment: think, the stuck check, act, and
the `except Exception` handler.  Returns the updated agent, the strings
appended to `results`, and whether the loop `break`s. -/
def runStep (env : ToolEnv) (resp : LLMResponse) (a : Agent) :
    Agent × List String × Bool :=
  let t := think resp a
  if t.1 = false then
    if t.2.tool_choices = ToolChoice.required then
      let emsg := "Error: Tool calls required but none provided"
      ({ t.2 with memory := t.2.memory ++ [Message.assistant_message (some emsg)] },
       [emsg], true)
    else (t.2, ["Thinking complete - no action needed"], true)
  else
    let a2 := if is_stuck t.2 then handle_stuck_state t.2 else t.2
    match act env a2 with
    | (a3, Except.ok result) =>
        (a3, ["Step " ++ toString a3.current_step ++ ": " ++ result],
         decide (a3.state = AgentState.FINISHED))
    | (a3, Except.error e) =>
        let emsg := "Error in step " ++ toString a3.current_step ++ ": " ++ pyErrStr env e
        ({ a3 with memory := a3.memory ++ [Message.assistant_message (some ("Error: " ++ emsg))] },
         [emsg], true)

/-- The `while self.current_step < self.max_steps` loop of
`ToolCallAgent.run`, with `script k` supplying the LLM reply of step `k`.
The loop body runs at most `fuel` times; `toolcall_run` supplies
`max_steps`, which is enough fuel (`runLoop_fuel_add`). -/
def runLoop (env : ToolEnv) (script : Nat → LLMResponse) :
    Nat → Agent → List String → Agent × List String
  | 0, a, results => (a, results)
  | Nat.succ fuel, a, results =>
      if a.current_step < a.max_steps then
        let a1 := { a with current_step := a.current_step + 1 }
        let s := runStep env (script a1.current_step) a1
        if s.2.2 then (s.1, results ++ s.2.1)
        else runLoop env script fuel s.1 (results ++ s.2.1)
      else (a, results)

/-- The agent after the `if request: self.update_memory("user", request)`
prologue of `ToolCallAgent.run`. -/
def runRequest (request : Option String) (a : Agent) : Agent :=
  match request with
  | some r =>
      if r ≠ "" then { a with memory := a.memory ++ [Message.user_message r] } else a
  | none => a

/-- `ToolCallAgent.run` (toolcall.py lines 73-122): record the request, run
the loop inside `state_context(RUNNING)` (which restores the previous state
on exit), and append the max-steps message when the bound was reached.
Returns the final agent and the `results` list (`run` itself returns
`"\n".join(results)`). -/
def toolcall_run (env : ToolEnv) (script : Nat → LLMResponse)
    (request : Option String) (a : Agent) : Agent × List String :=
  let a0 := runRequest request a
  let prev := a0.state
  let r1 := runLoop env script a0.max_steps { a0 with state := AgentState.RUNNING } []
  let r2 :=
    if r1.1.max_steps ≤ r1.1.current_step then
      let m := "Reached maximum steps limit (" ++ toString r1.1.max_steps ++ ")"
      ({ r1.1 with memory := r1.1.memory ++ [Message.assistant_message (some m)] },
       r1.2 ++ [m])
    else r1
  ({ r2.1 with state := prev }, r2.2)

/-! ### BaseAgent (`app/agent/base.py`) -/

/-- The mutable fields of a `BaseAgent` read or written by `BaseAgent.run`
and `_summarize_memory`. -/
structure BAgent where
  max_steps : Nat := 10
  current_step : Nat := 0
  state : AgentState := AgentState.IDLE
  memory : List Message := []
  max_memory_messages : Nat := 100
  memory_summary_threshold : Nat := 50
  auto_summarize : Bool := true
deriving DecidableEq

/-- The abstract `think` and `act` phases of `BaseAgent` (they are abstract
methods; concrete subclasses supply them).  The embedding covers
implementations that do not raise: `think` returns the `should_act` flag,
`act` returns the result string, and either may update the agent (including
setting `state := FINISHED`). -/
structure BasePhases where
  think : BAgent → Bool × BAgent
  act : BAgent → String × BAgent

/-- The role tag as rendered into the summary prompt. -/
def roleStr : Role → String
  | Role.system => "system"
  | Role.user => "user"
  | Role.assistant => "assistant"
  | Role.tool => "tool"

/-- The content as rendered into the summary prompt (`None` prints as
`"None"`). -/
def contentStr : Option String → String
  | none => "None"
  | some s => s

/-- The `messages_text` string built by `BaseAgent._summarize_memory`. -/
def memoryText (mem : List Message) : String :=
  String.intercalate "\n" (mem.map (fun m => roleStr m.role ++ ": " ++ contentStr m.content))

/-- `BaseAgent._summarize_memory` (base.py lines 66-88) with the LLM `ask`
call abstracted as `summarizer`: when memory is non-empty, the whole message
list is replaced by one synthetic system message holding the summary. -/
def summarize_memory (summarizer : String → String) (mem : List Message) :
    List Message :=
  if mem = [] then mem
  else
    [Message.system_message ("Previous conversation summary: " ++
      summarizer ("Please summarize the key points of this conversation:" ++
        "\n\n" ++ memoryText mem))]

/-- The `steps_limit = max_steps or self.max_steps` expression of
`BaseAgent.run` (base.py line 135): Python `or` takes the right operand when
the left is `None` or `0`. -/
def steps_limit (maxArg : Option Nat) (selfMax : Nat) : Nat :=
  match maxArg with
  | none => selfMax
  | some n => if n = 0 then selfMax else n

/-- The `while self.current_step < steps_limit` loop of `BaseAgent.run`
(base.py lines 139-167). -/
def baseRunLoop (ph : BasePhases) (limit : Nat) :
    Nat → BAgent → List String → BAgent × List String
  | 0, b, results => (b, results)
  | Nat.succ fuel, b, results =>
      if b.current_step < limit then
        let b1 := { b with current_step := b.current_step + 1 }
        let t := ph.think b1
        if t.1 = false then
          (t.2, results ++ ["Thinking complete - no action needed"])
        else
          let r := ph.act t.2
          let results := results ++ ["Step " ++ toString r.2.current_step ++ ": " ++ r.1]
          if r.2.state = AgentState.FINISHED then (r.2, results)
          else baseRunLoop ph limit fuel r.2 results
      else (b, results)

/-- The `if request: self.update_memory("user", request)` prologue of
`BaseAgent.run`. -/
def baseRequest (request : Option String) (b : BAgent) : BAgent :=
  match request with
  | some r =>
      if r ≠ "" then { b with memory := b.memory ++ [Message.user_message r] } else b
  | none => b

/-- `BaseAgent.run` (base.py lines 121-172): optional reset (state to IDLE,
step counter to 0, memory cleared), record the request, compute the step
limit with Python `or`, run the loop inside `state_context(RUNNING)`, and
append the max-steps result line when the bound was reached.  Memory
compression is nowhere invoked. -/
def base_run (ph : BasePhases) (request : Option String) (maxArg : Option Nat)
    (reset_before_run : Bool) (b : BAgent) : BAgent × List String :=
  let b0 := if reset_before_run then
      { b with state := AgentState.IDLE, current_step := 0, memory := [] }
    else b
  let b1 := baseRequest request b0
  let limit := steps_limit maxArg b1.max_steps
  let prev := b1.state
  let r1 := baseRunLoop ph limit limit { b1 with state := AgentState.RUNNING } []
  let r2 :=
    if limit ≤ r1.1.current_step then
      (r1.1, r1.2 ++ ["Reached maximum steps limit (" ++ toString limit ++ ")"])
    else r1
  ({ r2.1 with state := prev }, r2.2)

/-! ### LLM client retry layer (`app/llm.py`) -/

/-- The wire-error taxonomy of the spec, used to instantiate the abstract
error type of the retry model at concrete inputs. -/
inductive LLMErr
  | transport
  | rateLimit
  | serverError
  | auth
  | invalidRequest
  | contextLength
deriving DecidableEq

/-- Result of a retried call: either a success after `attempts` requests, or
tenacity's `RetryError` after exhaustion (carrying the last attempt's
error). -/
inductive RetryResult (E A : Type)
  | ok (a : A)
  | retryError (last : Option E)
deriving DecidableEq

/-- The attempt loop of the `@retry(wait=wait_random_exponential(...),
stop=stop_after_attempt(n))` decorator on `LLM.ask` and `LLM.ask_tool`:
attempt `k` with `fuel` attempts remaining; tenacity retries on ANY
exception and raises `RetryError` when the attempts are exhausted.  Returns
the number of requests issued and the outcome. -/
def tenacityGo {E A : Type} (oracle : Nat → Except E A) :
    Nat → Nat → Nat × RetryResult E A
  | _, 0 => (0, RetryResult.retryError none)
  | k, Nat.succ n =>
      match oracle k with
      | Except.ok a => (k, RetryResult.ok a)
      | Except.error e =>
          if n = 0 then (k, RetryResult.retryError (some e))
          else tenacityGo oracle (k + 1) n

/-- A retried public LLM-client call with `stop_after_attempt maxAttempts`;
`LLM.ask` and `LLM.ask_tool` both use `maxAttempts = 6`. -/
def tenacityRetry {E A : Type} (oracle : Nat → Except E A) (maxAttempts : Nat) :
    Nat × RetryResult E A :=
  tenacityGo oracle 1 maxAttempts

/-! ### Frame lemmas: which fields each operation leaves untouched -/

/-- `think` never touches the step counters, the policy fields or the engine
state; it only writes `memory` and `commands`. -/
theorem think_frame (resp : LLMResponse) (a : Agent) :
    (think resp a).2.current_step = a.current_step ∧
    (think resp a).2.max_steps = a.max_steps ∧
    (think resp a).2.tool_choices = a.tool_choices ∧
    (think resp a).2.state = a.state ∧
    (think resp a).2.next_step_prompt = a.next_step_prompt ∧
    (think resp a).2.special_tool_commands = a.special_tool_commands ∧
    (think resp a).2.duplicate_threshold = a.duplicate_threshold := by
  simp only [think]
  repeat' split
  all_goals exact ⟨rfl, rfl, rfl, rfl, rfl, rfl, rfl⟩

/-- `_execute_tool_call` only ever writes `state`; every other agent field is
untouched. -/
theorem execute_tool_call_frame (env : ToolEnv) (a : Agent) (c : ToolCall) :
    (execute_tool_call env a c).1.current_step = a.current_step ∧
    (execute_tool_call env a c).1.max_steps = a.max_steps ∧
    (execute_tool_call env a c).1.tool_choices = a.tool_choices ∧
    (execute_tool_call env a c).1.memory = a.memory ∧
    (execute_tool_call env a c).1.commands = a.commands ∧
    (execute_tool_call env a c).1.next_step_prompt = a.next_step_prompt ∧
    (execute_tool_call env a c).1.special_tool_commands = a.special_tool_commands := by
  simp only [execute_tool_call]
  repeat' split
  all_goals exact ⟨rfl, rfl, rfl, rfl, rfl, rfl, rfl⟩

/-- The dispatch loop of `act` leaves the step counters and policy fields
untouched (it writes only `memory` and `state`). -/
theorem actLoop_frame (env : ToolEnv) :
    ∀ (cs : List ToolCall) (a : Agent) (acc : List String),
    (actLoop env a cs acc).1.current_step = a.current_step ∧
    (actLoop env a cs acc).1.max_steps = a.max_steps ∧
    (actLoop env a cs acc).1.tool_choices = a.tool_choices ∧
    (actLoop env a cs acc).1.next_step_prompt = a.next_step_prompt ∧
    (actLoop env a cs acc).1.special_tool_commands = a.special_tool_commands := by
  intro cs
  induction cs with
  | nil => intro a acc; exact ⟨rfl, rfl, rfl, rfl, rfl⟩
  | cons c rest ih =>
      intro a acc
      have hf := execute_tool_call_frame env a c
      unfold actLoop
      split
      · next a1 result heq =>
          rw [heq] at hf
          have := ih { a1 with
            memory := a1.memory ++ [Message.tool_message result c.id c.name] }
            (acc ++ [result])
          exact ⟨this.1.trans hf.1, (this.2.1).trans hf.2.1,
            (this.2.2.1).trans hf.2.2.1, (this.2.2.2.1).trans hf.2.2.2.2.2.1,
            (this.2.2.2.2).trans hf.2.2.2.2.2.2⟩
      · next a1 e heq =>
          rw [heq] at hf
          exact ⟨hf.1, hf.2.1, hf.2.2.1, hf.2.2.2.2.2.1, hf.2.2.2.2.2.2⟩

/-- `act` leaves the step counters and policy fields untouched. -/
theorem act_frame (env : ToolEnv) (a : Agent) :
    (act env a).1.current_step = a.current_step ∧
    (act env a).1.max_steps = a.max_steps := by
  unfold act
  split
  · split <;> exact ⟨rfl, rfl⟩
  · exact ⟨(actLoop_frame env a.commands a []).1, (actLoop_frame env a.commands a []).2.1⟩

/-- One loop iteration of `ToolCallAgent.run` never changes `current_step`
(the increment happens before `runStep`) nor `max_steps`. -/
theorem runStep_frame (env : ToolEnv) (resp : LLMResponse) (a : Agent) :
    (runStep env resp a).1.current_step = a.current_step ∧
    (runStep env resp a).1.max_steps = a.max_steps := by
  have tf := think_frame resp a
  have hs : ∀ b : Agent, (if is_stuck b then handle_stuck_state b else b).current_step
        = b.current_step ∧
      (if is_stuck b then handle_stuck_state b else b).max_steps = b.max_steps := by
    intro b; split <;> exact ⟨rfl, rfl⟩
  simp only [runStep]
  split
  · split
    · exact ⟨tf.1, tf.2.1⟩
    · exact ⟨tf.1, tf.2.1⟩
  · split
    · next a3 result heq =>
        have af := act_frame env (if is_stuck (think resp a).2 then
          handle_stuck_state (think resp a).2 else (think resp a).2)
        rw [heq] at af
        exact ⟨af.1.trans (((hs (think resp a).2).1).trans tf.1),
          af.2.trans (((hs (think resp a).2).2).trans tf.2.1)⟩
    · next a3 e heq =>
        have af := act_frame env (if is_stuck (think resp a).2 then
          handle_stuck_state (think resp a).2 else (think resp a).2)
        rw [heq] at af
        exact ⟨af.1.trans (((hs (think resp a).2).1).trans tf.1),
          af.2.trans (((hs (think resp a).2).2).trans tf.2.1)⟩

/-- The run loop never changes `max_steps`. -/
theorem runLoop_max (env : ToolEnv) (script : Nat → LLMResponse) :
    ∀ (fuel : Nat) (a : Agent) (res : List String),
    (runLoop env script fuel a res).1.max_steps = a.max_steps := by
  intro fuel
  induction fuel with
  | zero => intro a res; rfl
  | succ fuel ih =>
      intro a res
      have sf := runStep_frame env (script (a.current_step + 1))
        { a with current_step := a.current_step + 1 }
      simp only [runLoop]
      split
      · split
        · exact sf.2
        · exact (ih _ _).trans sf.2
      · rfl

/-- The step counter stays within `max_steps` across the run loop. -/
theorem runLoop_le (env : ToolEnv) (script : Nat → LLMResponse) :
    ∀ (fuel : Nat) (a : Agent) (res : List String),
    a.current_step ≤ a.max_steps →
    (runLoop env script fuel a res).1.current_step ≤ a.max_steps := by
  intro fuel
  induction fuel with
  | zero => intro a res h; exact h
  | succ fuel ih =>
      intro a res h
      have sf := runStep_frame env (script (a.current_step + 1))
        { a with current_step := a.current_step + 1 }
      simp only [runLoop]
      split
      · next hlt =>
          split
          · rw [sf.1]; exact hlt
          · have hih := ih ((runStep env (script (a.current_step + 1))
              { a with current_step := a.current_step + 1 }).1)
              (res ++ (runStep env (script (a.current_step + 1))
                { a with current_step := a.current_step + 1 }).2.1)
              (by rw [sf.1, sf.2]; exact hlt)
            rw [sf.2] at hih
            exact hih
      · exact h

/-- Fuel irrelevance: once the loop has `max_steps - current_step` units of
fuel, adding more does not change the run.  This is the termination bound of
the while loop: it runs at most `max_steps - current_step` iterations. -/
theorem runLoop_fuel_add (env : ToolEnv) (script : Nat → LLMResponse) :
    ∀ (fuel k : Nat) (a : Agent) (res : List String),
    a.max_steps - a.current_step ≤ fuel →
    runLoop env script (fuel + k) a res = runLoop env script fuel a res := by
  intro fuel
  induction fuel with
  | zero =>
      intro k a res h
      have hge : a.max_steps ≤ a.current_step := by omega
      cases k with
      | zero => rfl
      | succ k =>
          show runLoop env script (Nat.succ (0 + k)) a res = (a, res)
          unfold runLoop
          rw [if_neg (by omega)]
  | succ fuel ih =>
      intro k a res h
      have hk : fuel + 1 + k = (fuel + k) + 1 := by omega
      rw [hk]
      have sf := runStep_frame env (script (a.current_step + 1))
        { a with current_step := a.current_step + 1 }
      show runLoop env script (Nat.succ (fuel + k)) a res =
        runLoop env script (Nat.succ fuel) a res
      simp only [runLoop]
      split
      · next hlt =>
          split
          · rfl
          · exact ih k _ _ (by
              rw [sf.1, sf.2]
              exact (by omega : a.max_steps - (a.current_step + 1) ≤ fuel))
      · rfl

/-- C1: upon termination of `ToolCallAgent.run` the step counter satisfies
`current_step ≤ max_steps`, and the while loop genuinely terminates within
`max_steps` iterations: giving the loop any amount of extra fuel beyond
`max_steps` changes nothing. -/
theorem c1_step_bound (env : ToolEnv) (script : Nat → LLMResponse)
    (request : Option String) (a : Agent) (h : a.current_step ≤ a.max_steps) :
    (toolcall_run env script request a).1.current_step ≤ a.max_steps ∧
    ∀ k, runLoop env script (a.max_steps + k)
        { runRequest request a with state := AgentState.RUNNING } [] =
      runLoop env script a.max_steps
        { runRequest request a with state := AgentState.RUNNING } [] := by
  have hreq : (runRequest request a).current_step = a.current_step ∧
      (runRequest request a).max_steps = a.max_steps := by
    cases request with
    | none => exact ⟨rfl, rfl⟩
    | some r =>
        simp only [runRequest]
        split <;> exact ⟨rfl, rfl⟩
  constructor
  · have hh : (runRequest request a).current_step ≤ (runRequest request a).max_steps := by
      rw [hreq.1, hreq.2]; exact h
    have hle := runLoop_le env script (runRequest request a).max_steps
      { runRequest request a with state := AgentState.RUNNING } [] hh
    rw [← hreq.2]
    simp only [toolcall_run]
    split
    · exact hle
    · exact hle
  · intro k
    have hgap : (runRequest request a).max_steps - (runRequest request a).current_step
        ≤ a.max_steps := by
      rw [hreq.1, hreq.2]; omega
    exact runLoop_fuel_add env script a.max_steps k
      { runRequest request a with state := AgentState.RUNNING } [] hgap

/-! ### Concrete fixtures used by witnesses and counterexamples -/

/-- A plausible tool environment: `json.loads` fails exactly on the text
`"not json"`, the registered executors are `echo` and `finish`, and every
executor returns normally. -/
def envA : ToolEnv :=
  { jsonDecodes := fun s => s ≠ "not json",
    hasTool := fun n => n = "echo" || n = "finish",
    outcome := fun c => ExecOutcome.ok ("out-" ++ c.name),
    jsonErrStr := fun _ => "Expecting value: line 1 column 1 (char 0)" }

/-- A tool environment whose `boom` executor raises. -/
def envB : ToolEnv :=
  { jsonDecodes := fun _ => true,
    hasTool := fun n => n = "echo" || n = "boom" || n = "finish",
    outcome := fun c =>
      if c.name = "boom" then ExecOutcome.raises "Traceback: boom"
      else ExecOutcome.ok ("out-" ++ c.name),
    jsonErrStr := fun _ => "err" }

/-- LLM script returning distinct plain contents and no tool calls. -/
def scriptC1 : Nat → LLMResponse := fun k => { content := some ("m" ++ toString k) }

/-- Agent fixture for the C1 witness. -/
def agentC1 : Agent := { next_step_prompt := "continue", max_steps := 2 }

/-- C1 witness: the step bound and the termination bound at a concrete run. -/
theorem c1_step_bound_witness :
    agentC1.current_step ≤ agentC1.max_steps ∧
    ((toolcall_run envA scriptC1 none agentC1).1.current_step ≤ agentC1.max_steps ∧
     ∀ k, runLoop envA scriptC1 (agentC1.max_steps + k)
         { runRequest none agentC1 with state := AgentState.RUNNING } [] =
       runLoop envA scriptC1 agentC1.max_steps
         { runRequest none agentC1 with state := AgentState.RUNNING } []) :=
  ⟨by decide, c1_step_bound envA scriptC1 none agentC1 (by decide)⟩

/-! ### C2: totality of the dispatcher -/

/-- The string returned by `_execute_tool_call` for a command whose raw
arguments decode: the unknown-command framing, the observation framing, or
the caught-exception framing. -/
def exec_observation (env : ToolEnv) (c : ToolCall) : String :=
  if c.name = "" then "Error:\nNo command specified."
  else if env.hasTool c.name = false then
    "Error:\nCommand \x27" ++ c.name ++ "\x27 not found."
  else
    match env.outcome c with
    | ExecOutcome.ok result =>
        "Observed result of " ++ c.name ++ ":\n" ++
          (if result ≠ "" then result
           else "Command completed successfully with no output.")
    | ExecOutcome.raises trace => "Error:\n" ++ trace

/-- A dispatched command is a terminal success when it names a registered
special tool and its executor returns (does not raise); exactly then
`_execute_tool_call` sets `state := FINISHED`. -/
def terminal_success (env : ToolEnv) (specials : List String) (c : ToolCall) : Bool :=
  decide (c.name ≠ "") && env.hasTool c.name &&
    (match env.outcome c with
     | ExecOutcome.ok _ => true
     | ExecOutcome.raises _ => false) &&
    specials.contains c.name

/-- When the raw arguments decode, `_execute_tool_call` returns normally: it
yields the observation string and touches only `state` (set to `FINISHED`
exactly on a terminal success). -/
theorem execute_tool_call_decode_ok (env : ToolEnv) (a : Agent) (c : ToolCall)
    (h : env.jsonDecodes c.arguments = true) :
    execute_tool_call env a c =
      ({ a with state := if terminal_success env a.special_tool_commands c
          then AgentState.FINISHED else a.state },
       Except.ok (exec_observation env c)) := by
  by_cases h1 : c.name = ""
  · simp [execute_tool_call, exec_observation, terminal_success, h, h1]
  · by_cases h2 : env.hasTool c.name = false
    · simp [execute_tool_call, exec_observation, terminal_success, h, h1, h2]
    · cases ho : env.outcome c with
      | ok result =>
          by_cases h3 : c.name ∈ a.special_tool_commands <;>
            simp [execute_tool_call, exec_observation, terminal_success,
              h, h1, h2, ho, h3]
      | raises trace =>
          simp [execute_tool_call, exec_observation, terminal_success,
            h, h1, h2, ho]

/-- The dispatch loop of `act`, when every command's arguments decode:
one tool-result message is appended per command, in command order; the state
becomes `FINISHED` exactly when some command is a terminal success; the
results are the observations in order. -/
theorem actLoop_ok (env : ToolEnv) :
    ∀ (cs : List ToolCall) (a : Agent) (acc : List String),
    (∀ c ∈ cs, env.jsonDecodes c.arguments = true) →
    actLoop env a cs acc =
      ({ a with
          memory := a.memory ++ cs.map (fun c =>
            Message.tool_message (exec_observation env c) c.id c.name),
          state := if cs.any (terminal_success env a.special_tool_commands)
            then AgentState.FINISHED else a.state },
       Except.ok (String.intercalate "\n\n" (acc ++ cs.map (exec_observation env)))) := by
  intro cs
  induction cs with
  | nil =>
      intro a acc h
      simp [actLoop]
  | cons c rest ih =>
      intro a acc h
      have hc : env.jsonDecodes c.arguments = true := h c (List.mem_cons_self c rest)
      have hrest : ∀ x ∈ rest, env.jsonDecodes x.arguments = true :=
        fun x hx => h x (List.mem_cons_of_mem c hx)
      simp only [actLoop, execute_tool_call_decode_ok env a c hc]
      rw [ih _ _ hrest]
      cases hb : terminal_success env a.special_tool_commands c <;>
        simp [hb, List.any_cons, List.append_assoc]

/-- A command whose raw arguments do not decode as JSON. -/
def cmdBadJson : ToolCall := { id := "1", name := "echo", arguments := "not json" }

/-- Agent fixture holding the undecodable command. -/
def agentC2 : Agent :=
  { next_step_prompt := "continue", max_steps := 3, commands := [cmdBadJson] }

/-- LLM script that always requests the undecodable command. -/
def scriptC2 : Nat → LLMResponse := fun _ =>
  { content := some "c", tool_calls := [cmdBadJson] }

/-- C2 counterexample: when the raw arguments fail JSON decoding, the
dispatcher does NOT return an error-bearing tool result — `json.loads` sits
before the `try` block, so the exception propagates out of
`_execute_tool_call`; the run loop catches it, records an assistant error
message, and stops after step 1 instead of continuing to the next turn. -/
theorem c2_counterexample :
    (execute_tool_call envA agentC2 cmdBadJson).2 =
      Except.error (PyErr.jsonDecodeError "not json") ∧
    (toolcall_run envA scriptC2 none agentC2).1.current_step = 1 ∧
    (toolcall_run envA scriptC2 none agentC2).2 =
      ["Error in step 1: Expecting value: line 1 column 1 (char 0)"] ∧
    (toolcall_run envA scriptC2 none agentC2).1.memory.map Message.content =
      [some "c",
       some "Error: Error in step 1: Expecting value: line 1 column 1 (char 0)"] := by
  refine ⟨by rfl, by decide, by decide, by decide⟩

/-- C2 (amended): for every turn in which all raw arguments decode, the
dispatcher is total — unknown tool names and executor exceptions are
contained as error-bearing result strings — one tool-result message per
invocation is recorded in memory in order, and `act` returns normally so the
engine continues. -/
theorem c2_amended (env : ToolEnv) (a : Agent)
    (h : ∀ c ∈ a.commands, env.jsonDecodes c.arguments = true)
    (hne : a.commands ≠ []) :
    (act env a).1.memory = a.memory ++ a.commands.map (fun c =>
      Message.tool_message (exec_observation env c) c.id c.name) ∧
    (act env a).2 = Except.ok
      (String.intercalate "\n\n" (a.commands.map (exec_observation env))) := by
  have hE : a.commands.isEmpty = false := by
    cases hc : a.commands with
    | nil => exact absurd hc hne
    | cons x xs => rfl
  simp only [act, hE, Bool.false_eq_true, if_false]
  rw [actLoop_ok env a.commands a [] h]
  simp

/-- Agent fixture for the C2 witness: one well-formed `echo` call followed by
a call whose executor raises. -/
def agentW2 : Agent :=
  { next_step_prompt := "continue", max_steps := 3,
    commands := [{ id := "1", name := "echo", arguments := "ok json" },
                 { id := "2", name := "boom", arguments := "ok json" }] }

/-- C2 witness: the amended dispatch totality at a concrete turn containing
a raising executor. -/
theorem c2_amended_witness :
    (∀ c ∈ agentW2.commands, envB.jsonDecodes c.arguments = true) ∧
    agentW2.commands ≠ [] ∧
    ((act envB agentW2).1.memory = agentW2.memory ++ agentW2.commands.map (fun c =>
      Message.tool_message (exec_observation envB c) c.id c.name) ∧
    (act envB agentW2).2 = Except.ok
      (String.intercalate "\n\n" (agentW2.commands.map (exec_observation envB)))) :=
  ⟨by decide, by decide, c2_amended envB agentW2 (by decide) (by decide)⟩

/-! ### C4: ordering and terminal-tool finalization within one turn -/

/-- When an iteration's `runStep` reports `break`, the while loop of
`ToolCallAgent.run` returns immediately: no further step is attempted. -/
theorem runLoop_break_succ (env : ToolEnv) (script : Nat → LLMResponse)
    (fuel : Nat) (a : Agent) (res : List String)
    (h : a.current_step < a.max_steps)
    (hbrk : (runStep env (script (a.current_step + 1))
      { a with current_step := a.current_step + 1 }).2.2 = true) :
    runLoop env script (fuel + 1) a res =
      ((runStep env (script (a.current_step + 1))
         { a with current_step := a.current_step + 1 }).1,
       res ++ (runStep env (script (a.current_step + 1))
         { a with current_step := a.current_step + 1 }).2.1) := by
  simp only [runLoop]
  rw [if_pos h, if_pos hbrk]

/-- The first invocation of the C4 turn. -/
def cmdA : ToolCall := { id := "1", name := "echo", arguments := "x" }

/-- The terminal invocation of the C4 turn. -/
def cmdT : ToolCall := { id := "2", name := "finish", arguments := "y" }

/-- The trailing peer invocation of the C4 turn. -/
def cmdB : ToolCall := { id := "3", name := "echo", arguments := "z" }

/-- Agent fixture whose current turn holds `[A, T, B]` with `T` terminal. -/
def agentC4 : Agent :=
  { next_step_prompt := "continue", max_steps := 3, commands := [cmdA, cmdT, cmdB] }

/-- C4 counterexample: with invocations `[A, T, B]` and `T` a successful
terminal tool, the engine-state field is already `FINISHED` after dispatching
only `[A, T]` — before `B` has been dispatched (only two tool messages are in
memory at that point), and the full dispatch factors through exactly that
intermediate agent.  The state does not become `Finished` "only after every
invocation of the turn has been processed". -/
theorem c4_counterexample :
    (actLoop envA agentC4 [cmdA, cmdT] []).1.state = AgentState.FINISHED ∧
    (actLoop envA agentC4 [cmdA, cmdT] []).1.memory.length = 2 ∧
    actLoop envA agentC4 [cmdA, cmdT, cmdB] [] =
      actLoop envA (actLoop envA agentC4 [cmdA, cmdT] []).1 [cmdB]
        ["Observed result of echo:\nout-echo", "Observed result of finish:\nout-finish"] :=
  ⟨by decide, by decide, by rfl⟩

/-- C4 (amended): within one turn every invocation is dispatched in
LLM-returned order and its result message appended in that order; the state
field is set to `FINISHED` during the dispatch of a successful terminal
invocation (peers after it still run and are recorded), so at end of turn
the state is `FINISHED` iff some invocation was a terminal success — in
particular a terminal tool whose executor raises does not finish; and the
run loop attempts no further step once an iteration reports `break`, which
it does whenever the turn did not end with `state ≠ FINISHED`. -/
theorem c4_amended (env : ToolEnv) (a : Agent)
    (h : ∀ c ∈ a.commands, env.jsonDecodes c.arguments = true)
    (hne : a.commands ≠ []) :
    (act env a).1.memory = a.memory ++ a.commands.map (fun c =>
      Message.tool_message (exec_observation env c) c.id c.name) ∧
    (act env a).1.state =
      (if a.commands.any (terminal_success env a.special_tool_commands)
       then AgentState.FINISHED else a.state) ∧
    (∀ (resp : LLMResponse) (b : Agent),
      (runStep env resp b).2.2 = false →
      (runStep env resp b).1.state ≠ AgentState.FINISHED) ∧
    (∀ (script : Nat → LLMResponse) (fuel : Nat) (b : Agent) (res : List String),
      b.current_step < b.max_steps →
      (runStep env (script (b.current_step + 1))
        { b with current_step := b.current_step + 1 }).2.2 = true →
      runLoop env script (fuel + 1) b res =
        ((runStep env (script (b.current_step + 1))
           { b with current_step := b.current_step + 1 }).1,
         res ++ (runStep env (script (b.current_step + 1))
           { b with current_step := b.current_step + 1 }).2.1)) := by
  have hE : a.commands.isEmpty = false := by
    cases hc : a.commands with
    | nil => exact absurd hc hne
    | cons x xs => rfl
  refine ⟨?_, ?_, ?_, ?_⟩
  · simp only [act, hE, Bool.false_eq_true, if_false]
    rw [actLoop_ok env a.commands a [] h]
  · simp only [act, hE, Bool.false_eq_true, if_false]
    rw [actLoop_ok env a.commands a [] h]
  · intro resp b hflag
    simp only [runStep] at hflag ⊢
    by_cases ht : (think resp b).1 = false
    · rw [if_pos ht] at hflag
      split at hflag <;> simp at hflag
    · rw [if_neg ht] at hflag
      rw [if_neg ht]
      split at hflag
      · next a3 result heq =>
          simp only at hflag ⊢
          simp at hflag
          exact hflag
      · next a3 e heq => simp at hflag
  · intro script fuel b res hlt hbrk
    exact runLoop_break_succ env script fuel b res hlt hbrk

/-- C4 witness: the amended turn semantics at the concrete `[A, T, B]`
turn. -/
theorem c4_amended_witness :
    (∀ c ∈ agentC4.commands, envA.jsonDecodes c.arguments = true) ∧
    agentC4.commands ≠ [] ∧
    ((act envA agentC4).1.memory = agentC4.memory ++ agentC4.commands.map (fun c =>
      Message.tool_message (exec_observation envA c) c.id c.name) ∧
    (act envA agentC4).1.state =
      (if agentC4.commands.any (terminal_success envA agentC4.special_tool_commands)
       then AgentState.FINISHED else agentC4.state) ∧
    (∀ (resp : LLMResponse) (b : Agent),
      (runStep envA resp b).2.2 = false →
      (runStep envA resp b).1.state ≠ AgentState.FINISHED) ∧
    (∀ (script : Nat → LLMResponse) (fuel : Nat) (b : Agent) (res : List String),
      b.current_step < b.max_steps →
      (runStep envA (script (b.current_step + 1))
        { b with current_step := b.current_step + 1 }).2.2 = true →
      runLoop envA script (fuel + 1) b res =
        ((runStep envA (script (b.current_step + 1))
           { b with current_step := b.current_step + 1 }).1,
         res ++ (runStep envA (script (b.current_step + 1))
           { b with current_step := b.current_step + 1 }).2.1))) :=
  ⟨by decide, by decide, c4_amended envA agentC4 (by decide) (by decide)⟩

/-! ### C3: `required` tool choice with empty invocation lists -/

/-- Agent fixture in `required` mode. -/
def agentC3 : Agent :=
  { tool_choices := ToolChoice.required, next_step_prompt := "continue", max_steps := 3 }

/-- LLM script that always returns content and no invocations. -/
def scriptC3 : Nat → LLMResponse := fun _ => { content := some "thinking" }

/-- C3 counterexample: under `tool_choice = required`, the FIRST empty
invocation list already terminates the session — `act` raises `ValueError`,
`run` catches it, records an assistant error message and breaks — with step
count 1, not 2, and with no retry prompt augmentation. -/
theorem c3_counterexample :
    (toolcall_run envA scriptC3 none agentC3).1.current_step = 1 ∧
    (toolcall_run envA scriptC3 none agentC3).2 =
      ["Error in step 1: Tool calls required but none provided"] ∧
    (toolcall_run envA scriptC3 none agentC3).1.next_step_prompt =
      agentC3.next_step_prompt := by
  refine ⟨by decide, by decide, by decide⟩

/-- C3 (amended): in `required` mode, a first-turn empty invocation list
makes `think` persist the assistant message and return `True`; `act` then
raises `ValueError("Tool calls required but none provided")`, which the run
loop catches in the same step: it appends one assistant error message and
terminates with `current_step = 1`.  No retry iteration and no prompt
augmentation happen. -/
theorem c3_amended (env : ToolEnv) (script : Nat → LLMResponse) (a : Agent)
    (hreq : a.tool_choices = ToolChoice.required)
    (hempty : (script 1).tool_calls = [])
    (hstep : a.current_step = 0)
    (hmax : 1 < a.max_steps) :
    (toolcall_run env script none a).1.current_step = 1 ∧
    (toolcall_run env script none a).1.memory =
      a.memory ++ [Message.assistant_message (script 1).content,
        Message.assistant_message
          (some "Error: Error in step 1: Tool calls required but none provided")] ∧
    (toolcall_run env script none a).2 =
      ["Error in step 1: Tool calls required but none provided"] := by
  rcases a with ⟨tc, prompt, specials, dupl, ms, cs, st, mem, cmds⟩
  simp only at hreq hstep hmax
  subst hreq
  subst hstep
  obtain ⟨m, rfl⟩ : ∃ m, ms = m + 2 := ⟨ms - 2, by omega⟩
  simp [toolcall_run, runRequest, runLoop, runStep, think, act,
    handle_stuck_state, pyErrStr, hempty,
    apply_ite Agent.memory, apply_ite Agent.commands, apply_ite Agent.current_step,
    apply_ite Agent.tool_choices, apply_ite Agent.max_steps, apply_ite Agent.state]
  exact ⟨by rfl, by rfl⟩

/-- C3 witness: the amended first-turn behaviour at the concrete fixture. -/
theorem c3_amended_witness :
    agentC3.tool_choices = ToolChoice.required ∧
    (scriptC3 1).tool_calls = [] ∧
    agentC3.current_step = 0 ∧
    1 < agentC3.max_steps ∧
    ((toolcall_run envA scriptC3 none agentC3).1.current_step = 1 ∧
    (toolcall_run envA scriptC3 none agentC3).1.memory =
      agentC3.memory ++ [Message.assistant_message (scriptC3 1).content,
        Message.assistant_message
          (some "Error: Error in step 1: Tool calls required but none provided")] ∧
    (toolcall_run envA scriptC3 none agentC3).2 =
      ["Error in step 1: Tool calls required but none provided"]) :=
  ⟨by decide, by decide, by decide, by decide,
   c3_amended envA scriptC3 agentC3 (by decide) (by decide) (by decide) (by decide)⟩

/-! ### C5: stuck detection -/

/-- LLM script returning the same content and one `echo` call every turn. -/
def scriptC5 : Nat → LLMResponse := fun _ =>
  { content := some "loop", tool_calls := [{ id := "1", name := "echo", arguments := "a" }] }

/-- Agent fixture with `duplicate_threshold = 2` and `n` allowed steps. -/
def agentC5 (n : Nat) : Agent := { next_step_prompt := "continue", max_steps := n }

/-- Memory fixture whose identical assistant contents are NOT consecutive:
`a, b, a` followed by the just-persisted `a`. -/
def memNonConsec : List Message :=
  [Message.assistant_message (some "a"), Message.assistant_message (some "b"),
   Message.assistant_message (some "a"), Message.assistant_message (some "a")]

set_option maxRecDepth 4000 in
/-- C5 counterexample: after four identical assistant messages the notice has
been prepended TWICE (cumulative, not once per streak); and `is_stuck` fires
on the history `a, b, a, a` although only one consecutive duplicate precedes
the last message, so the detector neither compares only with the most recent
prior assistant message nor resets on a non-duplicate. -/
theorem c5_counterexample :
    (toolcall_run envA scriptC5 none (agentC5 4)).1.next_step_prompt =
      stuck_prompt ++ "\n" ++ stuck_prompt ++ "\n" ++ "continue" ∧
    (toolcall_run envA scriptC5 none (agentC5 4)).1.next_step_prompt ≠
      stuck_prompt ++ "\n" ++ "continue" ∧
    is_stuck { agentC5 4 with memory := memNonConsec } = true := by
  refine ⟨by decide, by decide, by decide⟩

/-- C5 (amended): `is_stuck` counts identical assistant contents anywhere in
the prior history (no consecutive counter, no reset) and the notice is
prepended on EVERY iteration whose count reaches `duplicate_threshold`:
with threshold 2 and three consecutive identical assistant messages the
notice appears in the think prompt exactly once, but a fourth identical
message prepends it a second time (cumulative growth). -/
theorem c5_amended :
    (toolcall_run envA scriptC5 none (agentC5 3)).1.next_step_prompt =
      stuck_prompt ++ "\n" ++ "continue" ∧
    (toolcall_run envA scriptC5 none (agentC5 4)).1.next_step_prompt =
      stuck_prompt ++ "\n" ++ stuck_prompt ++ "\n" ++ "continue" ∧
    (∀ a : Agent, is_stuck a = true →
      (handle_stuck_state a).next_step_prompt =
        stuck_prompt ++ "\n" ++ a.next_step_prompt) := by
  refine ⟨by decide, by decide, fun a _ => rfl⟩

/-! ### C6: `tool_choice = none` turns -/

/-- LLM script with distinct contents and no invocations. -/
def scriptC6 : Nat → LLMResponse := fun k => { content := some ("m" ++ toString k) }

/-- Agent fixture in `none` mode. -/
def agentC6 : Agent :=
  { tool_choices := ToolChoice.tnone, next_step_prompt := "continue", max_steps := 3 }

/-- C6 counterexample: with `tool_choice = none` and non-empty content the
turn is NOT terminal — the run continues through all `max_steps` steps (the
step counter reaches 3, three assistant messages plus the max-steps message
are recorded), instead of finishing after one turn. -/
theorem c6_counterexample :
    (toolcall_run envA scriptC6 none agentC6).1.current_step = 3 ∧
    (toolcall_run envA scriptC6 none agentC6).1.memory.length = 4 ∧
    (toolcall_run envA scriptC6 none agentC6).2 =
      ["Step 1: m1", "Step 2: m2", "Step 3: m3", "Reached maximum steps limit (3)"] := by
  refine ⟨by decide, by decide, by decide⟩

/-- C6 (amended): with `tool_choice = none`, `think` clears the commands,
records the content exactly when it is non-empty, and returns its truthiness;
a command-less `act` dispatches nothing and echoes the last message content;
and a `none`-mode turn with non-empty content does NOT break the loop: the
run only ends early on an empty-content turn (or at the step bound), never
via a `Finished` transition from `think`. -/
theorem c6_amended (env : ToolEnv) (resp : LLMResponse) (a : Agent)
    (h : a.tool_choices = ToolChoice.tnone) :
    think resp a = (truthy resp.content,
      { a with
        commands := []
        memory := a.memory ++ (if truthy resp.content
          then [Message.assistant_message resp.content] else []) }) ∧
    (∀ b : Agent, b.tool_choices = ToolChoice.tnone → b.commands = [] →
      act env b = (b, Except.ok (lastContentOr b.memory "No content or commands to execute"))) ∧
    (truthy resp.content = true → a.state = AgentState.RUNNING →
      (runStep env resp a).2.2 = false) := by
  refine ⟨?_, ?_, ?_⟩
  · by_cases hc : truthy resp.content <;> simp [think, h, hc]
  · intro b hb hbc
    simp [act, hb, hbc]
  · intro hc hst
    have hth : think resp a = (true,
        { a with
          commands := []
          memory := a.memory ++ [Message.assistant_message resp.content] }) := by
      simp [think, h, hc]
    simp [runStep, hth, act, handle_stuck_state, hst, h,
      apply_ite Agent.commands, apply_ite Agent.tool_choices,
      apply_ite Agent.state, apply_ite Agent.memory]

/-- Response fixture for the C6 witness. -/
def respC6 : LLMResponse := { content := some "hello" }

/-- Agent fixture (mid-run, `RUNNING`) for the C6 witness. -/
def agentW6 : Agent :=
  { tool_choices := ToolChoice.tnone, next_step_prompt := "continue",
    max_steps := 3, state := AgentState.RUNNING }

/-- C6 witness: the amended `none`-mode semantics at a concrete turn. -/
theorem c6_amended_witness :
    agentW6.tool_choices = ToolChoice.tnone ∧
    (think respC6 agentW6 = (truthy respC6.content,
      { agentW6 with
        commands := []
        memory := agentW6.memory ++ (if truthy respC6.content
          then [Message.assistant_message respC6.content] else []) }) ∧
    (∀ b : Agent, b.tool_choices = ToolChoice.tnone → b.commands = [] →
      act envA b = (b, Except.ok (lastContentOr b.memory "No content or commands to execute"))) ∧
    (truthy respC6.content = true → agentW6.state = AgentState.RUNNING →
      (runStep envA respC6 agentW6).2.2 = false)) :=
  ⟨by decide, c6_amended envA respC6 agentW6 (by decide)⟩

/-! ### C7: memory compression -/

/-- A pair of phases that only ever appends to memory (all real `think`/`act`
implementations write via `memory.add_message`). -/
def AppendOnly (ph : BasePhases) : Prop :=
  ∀ b : BAgent, (∃ t, ((ph.think b).2).memory = b.memory ++ t) ∧
    (∃ t, ((ph.act b).2).memory = b.memory ++ t)

/-- The run loop of `BaseAgent.run` only extends memory: nothing in it
summarizes or truncates, whatever the message count. -/
theorem baseRunLoop_append (ph : BasePhases) (limit : Nat) (hap : AppendOnly ph) :
    ∀ (fuel : Nat) (b : BAgent) (res : List String),
    ∃ t, (baseRunLoop ph limit fuel b res).1.memory = b.memory ++ t := by
  intro fuel
  induction fuel with
  | zero => intro b res; exact ⟨[], by simp [baseRunLoop]⟩
  | succ fuel ih =>
      intro b res
      simp only [baseRunLoop]
      split
      · have h1 := (hap { b with current_step := b.current_step + 1 }).1
        split
        · obtain ⟨t1, ht1⟩ := h1
          exact ⟨t1, ht1⟩
        · obtain ⟨t1, ht1⟩ := h1
          obtain ⟨t2, ht2⟩ :=
            (hap (ph.think { b with current_step := b.current_step + 1 }).2).2
          split
          · exact ⟨t1 ++ t2, by rw [ht2, ht1, List.append_assoc]⟩
          · obtain ⟨t3, ht3⟩ := ih
              (ph.act (ph.think { b with current_step := b.current_step + 1 }).2).2
              (res ++ ["Step " ++ toString (ph.act (ph.think
                { b with current_step := b.current_step + 1 }).2).2.current_step ++
                ": " ++ (ph.act (ph.think
                { b with current_step := b.current_step + 1 }).2).1])
            exact ⟨t1 ++ (t2 ++ t3), by
              rw [ht3, ht2, ht1, List.append_assoc, List.append_assoc]⟩
      · exact ⟨[], by simp⟩

/-- The request prologue only appends (at most one user message). -/
theorem baseRequest_memory (request : Option String) (b : BAgent) :
    ∃ t, (baseRequest request b).memory = b.memory ++ t := by
  cases request with
  | none => exact ⟨[], by simp [baseRequest]⟩
  | some r =>
      by_cases hr : r ≠ ""
      · exact ⟨[Message.user_message r], by simp [baseRequest, hr]⟩
      · exact ⟨[], by simp [baseRequest, hr]⟩

/-- With `reset_before_run = False`, the memory returned by `BaseAgent.run`
is exactly the memory produced by its while loop: the postlude only appends
a results line and restores the state field. -/
theorem base_run_false_memory (ph : BasePhases) (request : Option String)
    (maxArg : Option Nat) (b : BAgent) :
    (base_run ph request maxArg false b).1.memory =
      (baseRunLoop ph (steps_limit maxArg (baseRequest request b).max_steps)
        (steps_limit maxArg (baseRequest request b).max_steps)
        { baseRequest request b with state := AgentState.RUNNING } []).1.memory := by
  by_cases hc : steps_limit maxArg (baseRequest request b).max_steps ≤
      (baseRunLoop ph (steps_limit maxArg (baseRequest request b).max_steps)
        (steps_limit maxArg (baseRequest request b).max_steps)
        { baseRequest request b with state := AgentState.RUNNING } []).1.current_step <;>
    simp [base_run, hc]

/-- Phases whose `think` immediately declines to act and change nothing. -/
def phasesIdle : BasePhases :=
  { think := fun b => (false, b), act := fun b => ("", b) }

/-- A five-message conversation fixture. -/
def memC7 : List Message :=
  [Message.user_message "m1", Message.assistant_message (some "r1"),
   Message.user_message "m2", Message.assistant_message (some "r2"),
   Message.user_message "m3"]

/-- Base agent whose memory already exceeds `max_memory_messages`. -/
def agentC7 : BAgent :=
  { max_steps := 10, memory := memC7, max_memory_messages := 3,
    memory_summary_threshold := 1 }

/-- A stub summarizer. -/
def sumStub : String → String := fun _ => "SUMMARY"

/-- C7 counterexample: a run whose memory count (5) exceeds
`max_memory_messages` (3) performs a think with no compression — the full
original memory survives untouched, oldest message included; and
`_summarize_memory` itself, when applied, replaces the WHOLE list with one
synthetic message, retaining no recent messages (the most recent message is
gone), contradicting both halves of the claim. -/
theorem c7_counterexample :
    agentC7.max_memory_messages < agentC7.memory.length ∧
    (base_run phasesIdle none none false agentC7).1.memory = memC7 ∧
    (summarize_memory sumStub memC7).length = 1 ∧
    memC7.getLast? = some (Message.user_message "m3") ∧
    ¬ (Message.user_message "m3") ∈ summarize_memory sumStub memC7 := by
  refine ⟨by decide, by decide, by decide, by decide, by decide⟩

/-- C7 (amended): `BaseAgent.run` never invokes `_summarize_memory` (no
compression hook exists): with append-only phases memory only ever grows
during a run, regardless of `max_memory_messages`; and `_summarize_memory`
itself, were it invoked on a non-empty memory, would replace the entire
message list with a single synthetic system summary, retaining no recent
suffix. -/
theorem c7_amended (ph : BasePhases) (request : Option String)
    (maxArg : Option Nat) (b : BAgent) (f : String → String) (mem : List Message)
    (hap : AppendOnly ph) (hm : mem ≠ []) :
    (∃ tail, (base_run ph request maxArg false b).1.memory = b.memory ++ tail) ∧
    summarize_memory f mem =
      [Message.system_message ("Previous conversation summary: " ++
        f ("Please summarize the key points of this conversation:" ++ "\n\n" ++
          memoryText mem))] := by
  constructor
  · obtain ⟨t0, ht0⟩ := baseRequest_memory request b
    obtain ⟨t, ht⟩ := baseRunLoop_append ph
      (steps_limit maxArg (baseRequest request b).max_steps) hap
      (steps_limit maxArg (baseRequest request b).max_steps)
      { baseRequest request b with state := AgentState.RUNNING } []
    refine ⟨t0 ++ t, ?_⟩
    rw [base_run_false_memory, ht]
    have hsm : ({ baseRequest request b with state := AgentState.RUNNING } : BAgent).memory
        = (baseRequest request b).memory := rfl
    rw [hsm, ht0, List.append_assoc]
  · simp [summarize_memory, hm]

/-- C7 witness: the amended no-compression facts at the concrete fixture. -/
theorem c7_amended_witness :
    AppendOnly phasesIdle ∧ memC7 ≠ [] ∧
    ((∃ tail, (base_run phasesIdle none none false agentC7).1.memory =
      agentC7.memory ++ tail) ∧
    summarize_memory sumStub memC7 =
      [Message.system_message ("Previous conversation summary: " ++
        sumStub ("Please summarize the key points of this conversation:" ++ "\n\n" ++
          memoryText memC7))]) :=
  ⟨fun b => ⟨⟨[], by simp [phasesIdle]⟩, ⟨[], by simp [phasesIdle]⟩⟩, by decide,
   c7_amended phasesIdle none none agentC7 sumStub memC7
     (fun b => ⟨⟨[], by simp [phasesIdle]⟩, ⟨[], by simp [phasesIdle]⟩⟩)
     (by decide)⟩

/-! ### C8: LLM client retry policy -/

/-- Attempts never exceed the `stop_after_attempt` bound. -/
theorem tenacityGo_le (E A : Type) (oracle : Nat → Except E A) :
    ∀ (n k : Nat), (tenacityGo oracle k n).1 ≤ k + n - 1 := by
  intro n
  induction n with
  | zero => intro k; exact Nat.zero_le _
  | succ n ih =>
      intro k
      simp only [tenacityGo]
      split
      · omega
      · split
        · omega
        · exact le_trans (ih (k + 1)) (by omega)

/-- When every allowed attempt fails, the retry loop makes them all and ends
in `RetryError` carrying the last error. -/
theorem tenacityGo_exhaust (E A : Type) (oracle : Nat → Except E A) :
    ∀ (m k : Nat), (∀ j, k ≤ j → j ≤ k + m → (oracle j).isOk = false) →
    ∃ e, oracle (k + m) = Except.error e ∧
      (tenacityGo oracle k (m + 1)).2 = RetryResult.retryError (some e) := by
  intro m
  induction m with
  | zero =>
      intro k hfail
      cases ho : oracle k with
      | ok a =>
          have := hfail k (le_refl k) (by omega)
          rw [ho] at this
          simp [Except.isOk, Except.toBool] at this
      | error e => exact ⟨e, by simpa using ho, by simp [tenacityGo, ho]⟩
  | succ m ih =>
      intro k hfail
      cases ho : oracle k with
      | ok a =>
          have := hfail k (le_refl k) (by omega)
          rw [ho] at this
          simp [Except.isOk, Except.toBool] at this
      | error e =>
          obtain ⟨e1, he1, he2⟩ := ih (k + 1)
            (fun j hj1 hj2 => hfail j (by omega) (by omega))
          refine ⟨e1, by rw [show k + (m + 1) = k + 1 + m by omega]; exact he1, ?_⟩
          simp only [tenacityGo, ho]
          rw [if_neg (by omega)]
          exact he2

/-- C8 (amended): each retried LLM-client call (`ask` / `ask_tool`) issues at
most 6 requests (`stop_after_attempt(6)`, a hardcoded bound); when all 6
attempts fail — whatever the error kinds — it raises tenacity's `RetryError`
wrapping the last error; and the policy retries after ANY exception: a
failed first attempt of any kind (the error type is fully abstract here) is
followed by a second attempt rather than an immediate re-raise. -/
theorem c8_amended (E A : Type) (oracle oFail oRetry : Nat → Except E A)
    (hfail : ∀ j, 1 ≤ j → j ≤ 6 → (oFail j).isOk = false)
    (h1 : (oRetry 1).isOk = false) (a : A) (h2 : oRetry 2 = Except.ok a) :
    (tenacityRetry oracle 6).1 ≤ 6 ∧
    (∃ e, oFail 6 = Except.error e ∧
      (tenacityRetry oFail 6).2 = RetryResult.retryError (some e)) ∧
    tenacityRetry oRetry 6 = (2, RetryResult.ok a) := by
  refine ⟨?_, ?_, ?_⟩
  · exact le_trans (tenacityGo_le E A oracle 6 1) (by omega)
  · obtain ⟨e, he1, he2⟩ := tenacityGo_exhaust E A oFail 5 1
      (fun j hj1 hj2 => hfail j hj1 (by omega))
    exact ⟨e, by simpa using he1, he2⟩
  · cases ho : oRetry 1 with
    | ok a1 =>
        rw [ho] at h1
        simp [Except.isOk, Except.toBool] at h1
    | error e => simp [tenacityRetry, tenacityGo, ho, h2]

/-- An attempt oracle that fails with a non-transient authentication error
on the first request and succeeds on the second. -/
def oracleC8 : Nat → Except LLMErr String :=
  fun k => if k = 1 then Except.error LLMErr.auth else Except.ok "hi"

/-- C8 counterexample: after a non-transient `auth` failure on attempt 1, the
client does NOT stop immediately — the decorator retries indiscriminately
and the call succeeds on attempt 2 with two requests issued, contrary to
"stopping immediately when a non-transient error is observed". -/
theorem c8_counterexample :
    oracleC8 1 = Except.error LLMErr.auth ∧
    tenacityRetry oracleC8 6 = (2, RetryResult.ok "hi") :=
  ⟨by rfl, by rfl⟩

/-- An oracle failing every attempt with an authentication error. -/
def oracleC8fail : Nat → Except LLMErr String := fun _ => Except.error LLMErr.auth

/-- C8 witness: the amended retry policy at concrete oracles. -/
theorem c8_amended_witness :
    (∀ j, 1 ≤ j → j ≤ 6 → (oracleC8fail j).isOk = false) ∧
    (oracleC8 1).isOk = false ∧ oracleC8 2 = Except.ok "hi" ∧
    ((tenacityRetry oracleC8 6).1 ≤ 6 ∧
    (∃ e, oracleC8fail 6 = Except.error e ∧
      (tenacityRetry oracleC8fail 6).2 = RetryResult.retryError (some e)) ∧
    tenacityRetry oracleC8 6 = (2, RetryResult.ok "hi")) :=
  ⟨fun j h1 h2 => rfl, by rfl, by rfl,
   c8_amended LLMErr String oracleC8 oracleC8fail oracleC8
     (fun j h1 h2 => rfl) (by rfl) "hi" (by rfl)⟩

/-! ### C9: the transient `next_step_prompt` -/

/-- C9: the outgoing message list of `think` is memory plus (when the prompt
is truthy) one transient user message, while the memory that `think` leaves
behind extends the old one by at most one assistant-role message — the
transient prompt is never persisted. -/
theorem c9_transient_prompt (resp : LLMResponse) (a : Agent) :
    think_messages a = a.memory ++ (if a.next_step_prompt = "" then []
      else [Message.user_message a.next_step_prompt]) ∧
    ((think resp a).2.memory = a.memory ∨
      ∃ m : Message, m.role = Role.assistant ∧
        (think resp a).2.memory = a.memory ++ [m]) := by
  constructor
  · by_cases h : a.next_step_prompt = "" <;> simp [think_messages, h]
  · by_cases h : a.tool_choices = ToolChoice.tnone
    · by_cases hc : truthy resp.content
      · exact Or.inr ⟨Message.assistant_message resp.content, rfl, by simp [think, h, hc]⟩
      · exact Or.inl (by simp [think, h, hc])
    · by_cases he : resp.tool_calls.isEmpty
      · have hee : resp.tool_calls = [] := by
          cases hl : resp.tool_calls with
          | nil => rfl
          | cons x xs => rw [hl] at he; simp at he
        refine Or.inr ⟨Message.assistant_message resp.content, rfl, ?_⟩
        by_cases hP : a.tool_choices = ToolChoice.required <;>
          by_cases hQ : a.tool_choices = ToolChoice.auto <;>
            simp [think, h, he, hee, hP, hQ]
      · have hne : resp.tool_calls ≠ [] := by
          cases hl : resp.tool_calls with
          | nil => rw [hl] at he; simp at he
          | cons x xs => simp
        refine Or.inr ⟨Message.from_tool_calls resp.content resp.tool_calls, rfl, ?_⟩
        simp [think, h, he, hne]

/-! ### C10: `max_steps or self.max_steps` with an explicit zero -/

/-- Phases that never touch the step counter (as `BaseAgent` subclasses'
`think`/`act` do not). -/
def StepPreserving (ph : BasePhases) : Prop :=
  ∀ b : BAgent, ((ph.think b).2).current_step = b.current_step ∧
    ((ph.act b).2).current_step = b.current_step

/-- Under step-preserving phases the loop never decreases the counter. -/
theorem baseRunLoop_mono (ph : BasePhases) (limit : Nat) (hp : StepPreserving ph) :
    ∀ (fuel : Nat) (b : BAgent) (res : List String),
    b.current_step ≤ (baseRunLoop ph limit fuel b res).1.current_step := by
  intro fuel
  induction fuel with
  | zero => intro b res; exact le_refl _
  | succ fuel ih =>
      intro b res
      simp only [baseRunLoop]
      split
      · have h1 : ((ph.think { b with current_step := b.current_step + 1 }).2).current_step
            = b.current_step + 1 := (hp _).1
        split
        · rw [h1]; omega
        · have h2 : ((ph.act (ph.think
              { b with current_step := b.current_step + 1 }).2).2).current_step
              = b.current_step + 1 := ((hp _).2).trans h1
          split
          · rw [h2]; omega
          · refine le_trans ?_ (ih _ _)
            rw [h2]; omega
      · exact le_refl _

/-- If the loop is entered (positive limit, counter below it, fuel
available), the counter strictly increases: at least one iteration runs. -/
theorem baseRunLoop_enter (ph : BasePhases) (limit : Nat) (hp : StepPreserving ph)
    (fuel : Nat) (b : BAgent) (res : List String) (h : b.current_step < limit) :
    b.current_step + 1 ≤ (baseRunLoop ph limit (fuel + 1) b res).1.current_step := by
  simp only [baseRunLoop]
  rw [if_pos h]
  have h1 : ((ph.think { b with current_step := b.current_step + 1 }).2).current_step
      = b.current_step + 1 := (hp _).1
  split
  · rw [h1]
  · have h2 : ((ph.act (ph.think
        { b with current_step := b.current_step + 1 }).2).2).current_step
        = b.current_step + 1 := ((hp _).2).trans h1
    split
    · rw [h2]
    · refine le_trans ?_ (baseRunLoop_mono ph limit hp _ _ _)
      rw [h2]

/-- The reset performed by `BaseAgent.run` when `reset_before_run` holds. -/
def resetB (b : BAgent) : BAgent :=
  { b with state := AgentState.IDLE, current_step := 0, memory := [] }

/-- The request prologue touches only memory. -/
theorem baseRequest_frame (request : Option String) (b : BAgent) :
    (baseRequest request b).current_step = b.current_step ∧
    (baseRequest request b).max_steps = b.max_steps ∧
    (baseRequest request b).state = b.state := by
  cases request with
  | none => exact ⟨rfl, rfl, rfl⟩
  | some r =>
      simp only [baseRequest]
      split <;> exact ⟨rfl, rfl, rfl⟩

/-- Running with the reset flag equals running without it from the reset
agent. -/
theorem base_run_reset (ph : BasePhases) (request : Option String)
    (maxArg : Option Nat) (b : BAgent) :
    base_run ph request maxArg true b = base_run ph request maxArg false (resetB b) := rfl

/-- The step counter returned by `BaseAgent.run` is the one produced by its
while loop: the postlude does not touch it. -/
theorem base_run_false_current (ph : BasePhases) (request : Option String)
    (maxArg : Option Nat) (b : BAgent) :
    (base_run ph request maxArg false b).1.current_step =
      (baseRunLoop ph (steps_limit maxArg (baseRequest request b).max_steps)
        (steps_limit maxArg (baseRequest request b).max_steps)
        { baseRequest request b with state := AgentState.RUNNING } []).1.current_step := by
  by_cases hc : steps_limit maxArg (baseRequest request b).max_steps ≤
      (baseRunLoop ph (steps_limit maxArg (baseRequest request b).max_steps)
        (steps_limit maxArg (baseRequest request b).max_steps)
        { baseRequest request b with state := AgentState.RUNNING } []).1.current_step <;>
    simp [base_run, hc]

/-- C10: `BaseAgent.run` computes its limit with Python `or`, so an explicit
`max_steps = 0` argument falls back to the configured `self.max_steps`: the
run behaves exactly as if no limit had been passed, and with a positive
configured limit at least one iteration executes — a zero argument does not
prevent iterations from running. -/
theorem c10_zero_limit (ph : BasePhases) (request : Option String) (b : BAgent)
    (h : 0 < b.max_steps) (hp : StepPreserving ph) :
    base_run ph request (some 0) true b = base_run ph request none true b ∧
    0 < (base_run ph request (some 0) true b).1.current_step := by
  constructor
  · rfl
  · rw [base_run_reset, base_run_false_current]
    have hfr := baseRequest_frame request (resetB b)
    have hmx : (baseRequest request (resetB b)).max_steps = b.max_steps := hfr.2.1
    have hL : 0 < steps_limit (some 0) (baseRequest request (resetB b)).max_steps := by
      simpa [steps_limit, hmx] using h
    obtain ⟨m, hm⟩ : ∃ m, steps_limit (some 0)
        (baseRequest request (resetB b)).max_steps = m + 1 :=
      ⟨steps_limit (some 0) (baseRequest request (resetB b)).max_steps - 1, by omega⟩
    rw [hm]
    have hE : ({ baseRequest request (resetB b) with
        state := AgentState.RUNNING } : BAgent).current_step = 0 := hfr.1
    have hen := baseRunLoop_enter ph (m + 1) hp m
      { baseRequest request (resetB b) with state := AgentState.RUNNING } []
      (by rw [hE]; omega)
    rw [hE] at hen
    omega

/-- Base agent fixture for the C10 witness. -/
def agentW10 : BAgent := { max_steps := 2 }

/-- C10 witness: a zero `max_steps` argument at a concrete agent. -/
theorem c10_zero_limit_witness :
    0 < agentW10.max_steps ∧ StepPreserving phasesIdle ∧
    (base_run phasesIdle none (some 0) true agentW10 =
       base_run phasesIdle none none true agentW10 ∧
     0 < (base_run phasesIdle none (some 0) true agentW10).1.current_step) :=
  ⟨by decide, fun b => ⟨rfl, rfl⟩,
   c10_zero_limit phasesIdle none agentW10 (by decide) (fun b => ⟨rfl, rfl⟩)⟩

end AgentHub
